import Mathlib

/-!
Verification of the core of the faah-sound terminal alert extension:
the debounce gate (src/core/debounce.ts), the rolling pattern matcher
(src/core/patternMatcher.ts) and the configuration normalizer
(src/extension.ts).  JavaScript numbers are modelled exactly as rationals
extended with NaN and the two signed infinities; strings are modelled at
the character level.
-/

/-- Model of a JavaScript number: NaN, a signed infinity, or a finite value
(modelled as an exact rational). -/
inductive JSNum where
  | nan : JSNum
  | inf (pos : Bool) : JSNum
  | fin (q : ℚ) : JSNum
deriving DecidableEq

/-- JavaScript subtraction on numbers. -/
def jsSub : JSNum → JSNum → JSNum
  | JSNum.nan, _ => JSNum.nan
  | _, JSNum.nan => JSNum.nan
  | JSNum.inf p, JSNum.inf q => if p = q then JSNum.nan else JSNum.inf p
  | JSNum.inf p, JSNum.fin _ => JSNum.inf p
  | JSNum.fin _, JSNum.inf q => JSNum.inf (!q)
  | JSNum.fin a, JSNum.fin b => JSNum.fin (a - b)

/-- JavaScript strict comparison a < b (false whenever an operand is NaN). -/
def jsLt : JSNum → JSNum → Bool
  | JSNum.nan, _ => false
  | _, JSNum.nan => false
  | JSNum.inf p, JSNum.inf q => !p && q
  | JSNum.inf p, JSNum.fin _ => !p
  | JSNum.fin _, JSNum.inf q => q
  | JSNum.fin a, JSNum.fin b => decide (a < b)

/-- JavaScript comparison a <= b (false whenever an operand is NaN). -/
def jsLe : JSNum → JSNum → Bool
  | JSNum.nan, _ => false
  | _, JSNum.nan => false
  | JSNum.inf p, JSNum.inf q => !p || q
  | JSNum.inf p, JSNum.fin _ => !p
  | JSNum.fin _, JSNum.inf q => q
  | JSNum.fin a, JSNum.fin b => decide (a ≤ b)

/-- JavaScript Math.max(0, x): NaN propagates, +Infinity stays +Infinity,
-Infinity becomes 0, a finite value is clamped from below by 0. -/
def jsMax0 : JSNum → JSNum
  | JSNum.nan => JSNum.nan
  | JSNum.inf true => JSNum.inf true
  | JSNum.inf false => JSNum.fin 0
  | JSNum.fin q => JSNum.fin (max 0 q)

/-- State of a DebounceGate (src/core/debounce.ts): the time of the last
allowed trigger and the configured window. -/
structure DebounceGate where
  lastTriggeredAt : JSNum
  debounceMs : JSNum
deriving DecidableEq

/-- The DebounceGate constructor: lastTriggeredAt starts at 0 and the
window is stored as Math.max(0, debounceMs). -/
def DebounceGate.new (debounceMs : JSNum) : DebounceGate :=
  { lastTriggeredAt := JSNum.fin 0, debounceMs := jsMax0 debounceMs }

/-- DebounceGate.updateDebounceMs: replace the window with
Math.max(0, debounceMs); the last-trigger timestamp is kept. -/
def DebounceGate.updateDebounceMs (g : DebounceGate) (debounceMs : JSNum) : DebounceGate :=
  { g with debounceMs := jsMax0 debounceMs }

/-- DebounceGate.canTrigger(now): returns the decision together with the
updated gate state, following src/core/debounce.ts line by line. -/
def DebounceGate.canTrigger (g : DebounceGate) (now : JSNum) : Bool × DebounceGate :=
  if jsLe g.debounceMs (JSNum.fin 0) then
    (true, { g with lastTriggeredAt := now })
  else if jsLt (jsSub now g.lastTriggeredAt) g.debounceMs then
    (false, g)
  else
    (true, { g with lastTriggeredAt := now })

theorem jsLe_pos_zero (w : ℚ) (hw : 0 < w) :
    jsLe (JSNum.fin w) (JSNum.fin 0) = false := by
  simp [jsLe]
  linarith

theorem canTrigger_pos (gl : JSNum) (w : ℚ) (hw : 0 < w) (now : JSNum) :
    DebounceGate.canTrigger ⟨gl, JSNum.fin w⟩ now =
      if jsLt (jsSub now gl) (JSNum.fin w) then (false, ⟨gl, JSNum.fin w⟩)
      else (true, ⟨now, JSNum.fin w⟩) := by
  unfold DebounceGate.canTrigger
  simp only [jsLe_pos_zero w hw, Bool.false_eq_true, if_false]

theorem canTrigger_fin_fin (gl t w : ℚ) (hw : 0 < w) :
    DebounceGate.canTrigger ⟨JSNum.fin gl, JSNum.fin w⟩ (JSNum.fin t) =
      if t - gl < w then (false, ⟨JSNum.fin gl, JSNum.fin w⟩)
      else (true, ⟨JSNum.fin t, JSNum.fin w⟩) := by
  rw [canTrigger_pos (JSNum.fin gl) w hw (JSNum.fin t)]
  by_cases h : t - gl < w
  · rw [if_pos h, if_pos]
    simp [jsSub, jsLt, h]
  · rw [if_neg h, if_neg]
    simp [jsSub, jsLt, h]

theorem canTrigger_true_state (g : DebounceGate) (w t0 : ℚ)
    (hg : g.debounceMs = JSNum.fin w) (hw : 0 < w)
    (h0 : (g.canTrigger (JSNum.fin t0)).1 = true) :
    (g.canTrigger (JSNum.fin t0)).2 =
      ⟨JSNum.fin t0, JSNum.fin w⟩ := by
  obtain ⟨gl, gd⟩ := g
  simp only at hg
  subst hg
  rw [canTrigger_pos gl w hw (JSNum.fin t0)] at h0 ⊢
  by_cases h : jsLt (jsSub (JSNum.fin t0) gl) (JSNum.fin w) = true
  · rw [if_pos h] at h0
    simp at h0
  · rw [if_neg h] at h0 ⊢

/-- Claim C1: with a positive window w and calls at times t0 < t1 < t2,
if canTrigger(t0) returned true and t1 - t0 < w, then the t1 call returns
false and leaves the gate state unchanged, and if moreover t2 - t0 >= w the
subsequent t2 call returns true. -/
theorem debounce_blocks_within_window_then_allows
    (g : DebounceGate) (w t0 t1 t2 : ℚ)
    (hg : g.debounceMs = JSNum.fin w) (hw : 0 < w)
    (h01 : t0 < t1) (h12 : t1 < t2)
    (h0 : (g.canTrigger (JSNum.fin t0)).1 = true)
    (hin : t1 - t0 < w) :
    ((g.canTrigger (JSNum.fin t0)).2.canTrigger (JSNum.fin t1)) =
      (false, (g.canTrigger (JSNum.fin t0)).2) ∧
    (w ≤ t2 - t0 →
      ((((g.canTrigger (JSNum.fin t0)).2.canTrigger (JSNum.fin t1)).2).canTrigger
        (JSNum.fin t2)).1 = true) := by
  have hstate := canTrigger_true_state g w t0 hg hw h0
  rw [hstate]
  have h1 : DebounceGate.canTrigger ⟨JSNum.fin t0, JSNum.fin w⟩ (JSNum.fin t1) =
      (false, ⟨JSNum.fin t0, JSNum.fin w⟩) := by
    rw [canTrigger_fin_fin t0 t1 w hw, if_pos hin]
  refine ⟨h1, fun h2 => ?_⟩
  rw [h1]
  rw [canTrigger_fin_fin t0 t2 w hw, if_neg (by linarith)]

/-- Witness for C1 at a concrete instance: window 10, calls at 10, 15, 25
starting from a gate whose reference time is 0. -/
theorem debounce_blocks_within_window_then_allows_witness :
    ((DebounceGate.canTrigger
        ⟨JSNum.fin 0, JSNum.fin 10⟩
        (JSNum.fin 10)).2.canTrigger (JSNum.fin 15)) =
      (false, (DebounceGate.canTrigger
        ⟨JSNum.fin 0, JSNum.fin 10⟩
        (JSNum.fin 10)).2) ∧
    ((10 : ℚ) ≤ 25 - 10 →
      ((((DebounceGate.canTrigger
        ⟨JSNum.fin 0, JSNum.fin 10⟩
        (JSNum.fin 10)).2.canTrigger (JSNum.fin 15)).2).canTrigger
        (JSNum.fin 25)).1 = true) :=
  debounce_blocks_within_window_then_allows
    ⟨JSNum.fin 0, JSNum.fin 10⟩
    10 10 15 25 rfl (by norm_num) (by norm_num) (by norm_num)
    (by rw [canTrigger_fin_fin 0 10 10 (by norm_num), if_neg (by norm_num)])
    (by norm_num)

/-- Claim C4: when the stored window is 0, canTrigger returns true for any
timestamp (finite or not) and records that timestamp as the last trigger
time. -/
theorem debounce_zero_window_always_allows
    (g : DebounceGate) (now : JSNum) (hg : g.debounceMs = JSNum.fin 0) :
    g.canTrigger now = (true, { g with lastTriggeredAt := now }) := by
  unfold DebounceGate.canTrigger
  rw [hg]
  simp [jsLe]

/-- Witness for C4: a gate with window 0 allows a call at time 7 and
records 7. -/
theorem debounce_zero_window_always_allows_witness :
    DebounceGate.canTrigger
      ⟨JSNum.fin 3, JSNum.fin 0⟩
      (JSNum.fin 7) =
    (true, ⟨JSNum.fin 7, JSNum.fin 0⟩) :=
  debounce_zero_window_always_allows
    ⟨JSNum.fin 3, JSNum.fin 0⟩
    (JSNum.fin 7) rfl

/-- Counterexample to claim C9: a +Infinity window is not clamped to zero
by the constructor (Math.max(0, +Infinity) = +Infinity), and the resulting
gate is always-deny rather than always-allow: canTrigger(5) returns
false. -/
theorem debounce_nonfinite_not_clamped_cex :
    (DebounceGate.new (JSNum.inf true)).debounceMs ≠ JSNum.fin 0 ∧
    ((DebounceGate.new (JSNum.inf true)).canTrigger (JSNum.fin 5)).1 = false := by
  constructor
  · simp [DebounceGate.new, jsMax0]
  · simp [DebounceGate.new, DebounceGate.canTrigger, jsMax0, jsLe, jsSub, jsLt]

/-- Claim C9 as amended: every window value strictly below zero in the
JavaScript ordering (all finite negatives and -Infinity) is clamped to
zero at construction and at update time, and the resulting gate allows
every call; NaN and +Infinity are stored unchanged by Math.max(0, x). -/
theorem debounce_negative_clamped_to_zero
    (d now : JSNum) (g : DebounceGate) (hneg : jsLt d (JSNum.fin 0) = true) :
    (DebounceGate.new d).debounceMs = JSNum.fin 0 ∧
    (g.updateDebounceMs d).debounceMs = JSNum.fin 0 ∧
    ((DebounceGate.new d).canTrigger now).1 = true := by
  have hclamp : jsMax0 d = JSNum.fin 0 := by
    cases d with
    | nan => simp [jsLt] at hneg
    | inf p =>
      cases p with
      | false => simp [jsMax0]
      | true => simp [jsLt] at hneg
    | fin q =>
      simp [jsLt] at hneg
      simp [jsMax0]
      linarith
  refine ⟨hclamp, hclamp, ?_⟩
  simp only [DebounceGate.canTrigger, DebounceGate.new, hclamp]
  simp [jsLe]

/-- Witness for the amended C9 at the concrete window -3: clamped to 0 and
the gate allows a call at time 1. -/
theorem debounce_negative_clamped_to_zero_witness :
    (DebounceGate.new (JSNum.fin (-3))).debounceMs = JSNum.fin 0 ∧
    (DebounceGate.updateDebounceMs
      ⟨JSNum.fin 0, JSNum.fin 5⟩
      (JSNum.fin (-3))).debounceMs = JSNum.fin 0 ∧
    ((DebounceGate.new (JSNum.fin (-3))).canTrigger (JSNum.fin 1)).1 = true :=
  debounce_negative_clamped_to_zero (JSNum.fin (-3)) (JSNum.fin 1)
    ⟨JSNum.fin 0, JSNum.fin 5⟩
    (by decide)

/-- Claim C10: a freshly constructed gate with positive finite window w
behaves as if a trigger had been allowed at time 0: the first call at time
t with 0 <= t < w returns false, and with w <= t returns true. -/
theorem debounce_fresh_gate_reference_zero (w t : ℚ) (hw : 0 < w) :
    (0 ≤ t → t < w →
      ((DebounceGate.new (JSNum.fin w)).canTrigger (JSNum.fin t)).1 = false) ∧
    (w ≤ t →
      ((DebounceGate.new (JSNum.fin w)).canTrigger (JSNum.fin t)).1 = true) := by
  have hmax : DebounceGate.new (JSNum.fin w) =
      (⟨JSNum.fin 0, JSNum.fin w⟩ : DebounceGate) := by
    simp [DebounceGate.new, jsMax0]
    exact hw.le
  rw [hmax]
  constructor
  · intro _ hlt
    rw [canTrigger_fin_fin 0 t w hw, if_pos (by linarith)]
  · intro hge
    rw [canTrigger_fin_fin 0 t w hw, if_neg (by linarith)]

/-- Witness for C10 with window 2: at time 1 the fresh gate denies, at
time 3 it allows. -/
theorem debounce_fresh_gate_reference_zero_witness :
    ((DebounceGate.new (JSNum.fin 2)).canTrigger (JSNum.fin 1)).1 = false ∧
    ((DebounceGate.new (JSNum.fin 2)).canTrigger (JSNum.fin 3)).1 = true :=
  ⟨(debounce_fresh_gate_reference_zero 2 1 (by norm_num)).1 (by norm_num) (by norm_num),
   (debounce_fresh_gate_reference_zero 2 3 (by norm_num)).2 (by norm_num)⟩

/-- The escape character (code 27) that introduces an ANSI sequence. -/
def ESC : Char := Char.ofNat 27

/-- The bell character (code 7), one of the OSC terminators. -/
def BEL : Char := Char.ofNat 7

/-- Character class [@-Z\\-_] of ANSI_SEQUENCE_PATTERN: the single-character
escapes, codes 0x40-0x5A and 0x5C-0x5F (this includes the ] character). -/
def isFeByte (c : Char) : Bool :=
  (decide (0x40 ≤ c.toNat) && decide (c.toNat ≤ 0x5A)) ||
  (decide (0x5C ≤ c.toNat) && decide (c.toNat ≤ 0x5F))

/-- CSI parameter bytes [0-?], codes 0x30-0x3F. -/
def isParamByte (c : Char) : Bool :=
  decide (0x30 ≤ c.toNat) && decide (c.toNat ≤ 0x3F)

/-- CSI intermediate bytes (space to slash), codes 0x20-0x2F. -/
def isInterByte (c : Char) : Bool :=
  decide (0x20 ≤ c.toNat) && decide (c.toNat ≤ 0x2F)

/-- CSI final bytes [@-~], codes 0x40-0x7E. -/
def isFinalByte (c : Char) : Bool :=
  decide (0x40 ≤ c.toNat) && decide (c.toNat ≤ 0x7E)

/-- Match the CSI body after ESC[ : zero or more parameter bytes, then
zero or more intermediate bytes, then one final byte; the three classes
are disjoint, so greedy scanning is exact.  Returns the rest of the text
after the match. -/
def csiTail (l : List Char) : Option (List Char) :=
  match (l.dropWhile isParamByte).dropWhile isInterByte with
  | [] => none
  | f :: rest => if isFinalByte f then some rest else none

/-- Match the OSC body [^\x07]*(?:\x07|\x1B\\) after ESC] with the greedy
backtracking semantics of the regex: prefer to extend the star, otherwise
take a terminator here (BEL, or ESC followed by backslash). -/
def oscTail : List Char → Option (List Char)
  | [] => none
  | c :: rest =>
    if c = BEL then some rest
    else
      match oscTail rest with
      | some r => some r
      | none =>
        if c = ESC then
          match rest with
          | d :: r2 => if d = '\\' then some r2 else none
          | [] => none
        else none

/-- Match the part of ANSI_SEQUENCE_PATTERN after the leading ESC, trying
the three alternatives in the regex's order.  Because isFeByte contains ],
the OSC alternative is unreachable, exactly as in the source regex. -/
def ansiTail : List Char → Option (List Char)
  | [] => none
  | d :: r2 =>
    if isFeByte d then some r2
    else if d = '[' then csiTail r2
    else if d = ']' then oscTail r2
    else none

/-- One left-to-right pass of String.replace with ANSI_SEQUENCE_PATTERN and
the empty replacement: at each ESC try to match the rest of the sequence,
drop it on success, otherwise keep the character.  The fuel argument only
serves termination; any fuel at least the length of the list is enough. -/
def stripGo : Nat → List Char → List Char
  | _, [] => []
  | 0, l => l
  | fuel + 1, c :: rest =>
    if c = ESC then
      match ansiTail rest with
      | some r => stripGo fuel r
      | none => c :: stripGo fuel rest
    else c :: stripGo fuel rest

/-- stripAnsiSequences (src/core/patternMatcher.ts): remove every match of
ANSI_SEQUENCE_PATTERN from the string. -/
def stripAnsiSequences (s : String) : String :=
  ⟨stripGo s.data.length s.data⟩

theorem stripGo_no_esc (fuel : Nat) :
    ∀ (l : List Char), ESC ∉ l → stripGo fuel l = l := by
  induction fuel with
  | zero =>
    intro l _
    cases l with
    | nil => rfl
    | cons c rest => rfl
  | succ f ih =>
    intro l h
    cases l with
    | nil => rfl
    | cons c rest =>
      have hc : c ≠ ESC := fun hce => h (hce ▸ List.mem_cons_self c rest)
      have hrest : ESC ∉ rest := fun hm => h (List.mem_cons_of_mem c hm)
      simp only [stripGo, if_neg hc]
      rw [ih rest hrest]

/-- Counterexample to claim C8: stripAnsiSequences is not idempotent.  On
ESC ESC [ 3 1 m [ 0 m, the first pass removes the CSI sequence starting at
index 1, juxtaposing the leading ESC with "[0m" into a new CSI sequence
that only a second pass removes. -/
theorem stripAnsi_not_idempotent_cex :
    stripAnsiSequences (stripAnsiSequences "\x1B\x1B[31m[0m") ≠
      stripAnsiSequences "\x1B\x1B[31m[0m" := by
  decide

/-- Claim C8 as amended: stripAnsiSequences removes a known CSI color-code
sequence while preserving the surrounding plain text exactly, and it is
the identity (hence idempotent) on every string that contains no ESC
character; it is not idempotent in general. -/
theorem stripAnsi_removes_csi_and_fixes_esc_free :
    stripAnsiSequences "\x1B[31mError:\x1B[0m command failed" =
      "Error: command failed" ∧
    ∀ s : String, ESC ∉ s.data →
      stripAnsiSequences s = s ∧
      stripAnsiSequences (stripAnsiSequences s) = stripAnsiSequences s := by
  refine ⟨by decide, fun s h => ?_⟩
  have hid : stripAnsiSequences s = s := by
    unfold stripAnsiSequences
    rw [stripGo_no_esc s.data.length s.data h]
  exact ⟨hid, by rw [hid, hid]⟩

/-- Witness for the amended C8 at the ESC-free string "plain". -/
theorem stripAnsi_removes_csi_and_fixes_esc_free_witness :
    stripAnsiSequences "plain" = "plain" ∧
    stripAnsiSequences (stripAnsiSequences "plain") = stripAnsiSequences "plain" :=
  (stripAnsi_removes_csi_and_fixes_esc_free).2 "plain" (by decide)

/-- trimToMax (src/core/patternMatcher.ts): keep only the trailing
maxChars characters (value.slice(value.length - maxChars)). -/
def trimToMax (value : String) (maxChars : Nat) : String :=
  if value.length ≤ maxChars then value
  else ⟨value.data.drop (value.length - maxChars)⟩

/-- State of a RollingPatternMatcher: the per-session-key buffers (the
Map of the source, modelled as a function to Option) and the maximum
buffer size.  Session keys are an opaque type with decidable equality.
A pattern is modelled by its test function on the buffer text; the
source's testRegExp resets any global or sticky lastIndex before calling
RegExp.test, which is exactly what makes a RegExp behave as such a pure
function. -/
structure RollingPatternMatcher (κ : Type) where
  buffers : κ → Option String
  maxBufferChars : Nat

/-- The RollingPatternMatcher constructor: no buffers yet, and the
maximum is Math.max(256, maxBufferChars); the source's default argument
is 4096. -/
def RollingPatternMatcher.new (κ : Type) (maxBufferChars : Int) :
    RollingPatternMatcher κ :=
  ⟨fun _ => none, (max 256 maxBufferChars).toNat⟩

/-- RollingPatternMatcher.matches: fetch (or default to empty) the buffer
for the key, append the ANSI-stripped chunk, trim to the maximum keeping
the most recent characters, store the result, then test every pattern
against the full retained buffer, short-circuiting on first match. -/
def RollingPatternMatcher.matches {κ : Type} [DecidableEq κ]
    (m : RollingPatternMatcher κ) (key : κ) (chunk : String)
    (patterns : List (String → Bool)) :
    Bool × RollingPatternMatcher κ :=
  let previous := (m.buffers key).getD ""
  let combined := trimToMax (previous ++ stripAnsiSequences chunk) m.maxBufferChars
  (patterns.any (fun p => p combined),
   ⟨fun k => if k = key then some combined else m.buffers k, m.maxBufferChars⟩)

/-- RollingPatternMatcher.clear: discard the buffer for a session key. -/
def RollingPatternMatcher.clear {κ : Type} [DecidableEq κ]
    (m : RollingPatternMatcher κ) (key : κ) : RollingPatternMatcher κ :=
  ⟨fun k => if k = key then none else m.buffers k, m.maxBufferChars⟩

/-- One recorded call to RollingPatternMatcher.matches. -/
structure MatchCall (κ : Type) where
  key : κ
  chunk : String
  patterns : List (String → Bool)

/-- Run a sequence of matches calls, returning the final matcher state. -/
def runMatches {κ : Type} [DecidableEq κ] :
    RollingPatternMatcher κ → List (MatchCall κ) → RollingPatternMatcher κ
  | m, [] => m
  | m, c :: cs => runMatches (m.matches c.key c.chunk c.patterns).2 cs

/-- Run a sequence of matches calls, returning each call's key paired with
its boolean result, in call order. -/
def runTrace {κ : Type} [DecidableEq κ] :
    RollingPatternMatcher κ → List (MatchCall κ) → List (κ × Bool)
  | _, [] => []
  | m, c :: cs =>
    (c.key, (m.matches c.key c.chunk c.patterns).1) ::
      runTrace (m.matches c.key c.chunk c.patterns).2 cs

/-- The accumulated ANSI-stripped text a given session key has received
over a call sequence, in chronological order. -/
def accumStripped {κ : Type} [DecidableEq κ] (k : κ) :
    List (MatchCall κ) → List Char
  | [] => []
  | c :: cs =>
    (if c.key = k then (stripAnsiSequences c.chunk).data else []) ++
      accumStripped k cs

theorem trimToMax_length_le (v : String) (n : Nat) :
    (trimToMax v n).length ≤ n := by
  unfold trimToMax
  by_cases h : v.length ≤ n
  · rw [if_pos h]
    exact h
  · rw [if_neg h]
    show (v.data.drop (v.length - n)).length ≤ n
    rw [List.length_drop]
    have hv : v.length = v.data.length := rfl
    omega

theorem trimToMax_suffix (v : String) (n : Nat) :
    (trimToMax v n).data <:+ v.data := by
  unfold trimToMax
  by_cases h : v.length ≤ n
  · rw [if_pos h]
  · rw [if_neg h]
    exact List.drop_suffix _ _

theorem trimToMax_eq_self (v : String) (n : Nat) (h : v.length ≤ n) :
    trimToMax v n = v := by
  unfold trimToMax
  rw [if_pos h]

/-- Does pat occur as a contiguous substring of the text? -/
def occursIn : List Char → List Char → Bool
  | pat, [] => pat.isEmpty
  | pat, c :: rest => pat.isPrefixOf (c :: rest) || occursIn pat rest

/-- The test function of a regular expression equivalent to /Error/: does
the text contain the word Error? -/
def testErrorWord (s : String) : Bool := occursIn "Error".data s.data

/-- Counterexample to claim C2: with the chunks "Err\x1B" and "[31mor"
and the pattern /Error/, the pattern matches the stripped concatenation
(which is "Error") and neither stripped piece alone, and the first
matches call returns false as the claim says, but the second call also
returns false: the matcher strips each chunk separately, so the escape
sequence split across the two chunks is never removed from the buffer. -/
theorem matcher_cross_chunk_cex :
    testErrorWord (stripAnsiSequences ("Err\x1B" ++ "[31mor")) = true ∧
    testErrorWord (stripAnsiSequences "Err\x1B") = false ∧
    testErrorWord (stripAnsiSequences "[31mor") = false ∧
    ((RollingPatternMatcher.new Nat 4096).matches 0 "Err\x1B"
      [testErrorWord]).1 = false ∧
    (((RollingPatternMatcher.new Nat 4096).matches 0 "Err\x1B"
      [testErrorWord]).2.matches 0 "[31mor" [testErrorWord]).1 = false := by
  decide

/-- Claim C2 as amended: for a key with no buffered text yet, if some
pattern matches the concatenation of the two per-chunk-stripped pieces,
no pattern matches either stripped piece alone, and the combined stripped
length fits in the buffer maximum, then the first matches call returns
false and the immediately following call on the second chunk returns
true. -/
theorem matcher_cross_chunk_detection {κ : Type} [DecidableEq κ]
    (m : RollingPatternMatcher κ) (k : κ) (c1 c2 : String)
    (ps : List (String → Bool))
    (hfresh : m.buffers k = none)
    (hlen : (stripAnsiSequences c1).length + (stripAnsiSequences c2).length ≤
      m.maxBufferChars)
    (h1 : ∀ p ∈ ps, p (stripAnsiSequences c1) = false)
    (h2 : ∀ p ∈ ps, p (stripAnsiSequences c2) = false)
    (hcat : ps.any
      (fun p => p (stripAnsiSequences c1 ++ stripAnsiSequences c2)) = true) :
    (m.matches k c1 ps).1 = false ∧
    ((m.matches k c1 ps).2.matches k c2 ps).1 = true := by
  have hempty : ("" ++ stripAnsiSequences c1 : String) = stripAnsiSequences c1 := by
    apply String.ext
    rw [String.data_append]
    rfl
  have htrim1 : trimToMax ("" ++ stripAnsiSequences c1) m.maxBufferChars =
      stripAnsiSequences c1 := by
    rw [hempty]
    exact trimToMax_eq_self _ _ (le_trans (Nat.le_add_right _ _) hlen)
  have htrim2 : trimToMax (stripAnsiSequences c1 ++ stripAnsiSequences c2)
      m.maxBufferChars = stripAnsiSequences c1 ++ stripAnsiSequences c2 := by
    apply trimToMax_eq_self
    rw [String.length_append]
    exact hlen
  constructor
  · show (List.any ps fun p =>
      p (trimToMax ((m.buffers k).getD "" ++ stripAnsiSequences c1)
        m.maxBufferChars)) = false
    rw [hfresh]
    show (List.any ps fun p =>
      p (trimToMax ("" ++ stripAnsiSequences c1) m.maxBufferChars)) = false
    rw [htrim1]
    simp only [List.any_eq_false]
    intro p hp
    simp [h1 p hp]
  · show (List.any ps fun p =>
      p (trimToMax ((((m.matches k c1 ps).2).buffers k).getD "" ++
        stripAnsiSequences c2) ((m.matches k c1 ps).2).maxBufferChars)) = true
    have hbuf : ((m.matches k c1 ps).2).buffers k =
        some (stripAnsiSequences c1) := by
      show (if k = k then some (trimToMax ((m.buffers k).getD "" ++
        stripAnsiSequences c1) m.maxBufferChars) else m.buffers k) =
        some (stripAnsiSequences c1)
      rw [if_pos rfl, hfresh]
      show some (trimToMax ("" ++ stripAnsiSequences c1) m.maxBufferChars) = _
      rw [htrim1]
    have hmax : ((m.matches k c1 ps).2).maxBufferChars = m.maxBufferChars := rfl
    rw [hbuf, hmax]
    show (List.any ps fun p =>
      p (trimToMax (stripAnsiSequences c1 ++ stripAnsiSequences c2)
        m.maxBufferChars)) = true
    rw [htrim2]
    exact hcat

/-- Witness for the amended C2: pattern /Error/, fresh default matcher,
chunks "Err" and "or". -/
theorem matcher_cross_chunk_detection_witness :
    ((RollingPatternMatcher.new Nat 4096).matches 0 "Err" [testErrorWord]).1 = false ∧
    (((RollingPatternMatcher.new Nat 4096).matches 0 "Err"
      [testErrorWord]).2.matches 0 "or" [testErrorWord]).1 = true :=
  matcher_cross_chunk_detection (RollingPatternMatcher.new Nat 4096) 0 "Err" "or"
    [testErrorWord] rfl (by decide)
    (by intro p hp; rw [List.mem_singleton] at hp; subst hp; decide)
    (by intro p hp; rw [List.mem_singleton] at hp; subst hp; decide)
    (by decide)

theorem isSuffix_append_same {α : Type} {l1 l2 : List α} (t : List α)
    (h : l1 <:+ l2) : l1 ++ t <:+ l2 ++ t := by
  obtain ⟨u, rfl⟩ := h
  exact ⟨u, (List.append_assoc u l1 t).symm⟩

theorem runMatches_maxBufferChars {κ : Type} [DecidableEq κ]
    (calls : List (MatchCall κ)) :
    ∀ m : RollingPatternMatcher κ,
      (runMatches m calls).maxBufferChars = m.maxBufferChars := by
  induction calls with
  | nil => intro m; rfl
  | cons c cs ih => intro m; exact ih _

theorem runMatches_buffer_inv {κ : Type} [DecidableEq κ] (k : κ)
    (calls : List (MatchCall κ)) :
    ∀ (m : RollingPatternMatcher κ) (acc : List Char),
      (∀ s, m.buffers k = some s →
        s.length ≤ m.maxBufferChars ∧ s.data <:+ acc) →
      ∀ s, (runMatches m calls).buffers k = some s →
        s.length ≤ m.maxBufferChars ∧ s.data <:+ acc ++ accumStripped k calls := by
  induction calls with
  | nil =>
    intro m acc h s hs
    have := h s hs
    simpa [accumStripped] using this
  | cons c cs ih =>
    intro m acc h s hs
    have hstep : runMatches m (c :: cs) =
        runMatches (m.matches c.key c.chunk c.patterns).2 cs := rfl
    rw [hstep] at hs
    by_cases hk : c.key = k
    · subst hk
      have hnext : ∀ s', ((m.matches c.key c.chunk c.patterns).2).buffers c.key =
          some s' →
          s'.length ≤ ((m.matches c.key c.chunk c.patterns).2).maxBufferChars ∧
          s'.data <:+ acc ++ (stripAnsiSequences c.chunk).data := by
        intro s' hs'
        have hval : ((m.matches c.key c.chunk c.patterns).2).buffers c.key =
            some (trimToMax ((m.buffers c.key).getD "" ++ stripAnsiSequences c.chunk)
              m.maxBufferChars) := by
          show (if c.key = c.key then _ else _) = _
          rw [if_pos rfl]
        rw [hval] at hs'
        have hs'' := Option.some.inj hs'
        subst hs''
        refine ⟨trimToMax_length_le _ _, ?_⟩
        have h1 : (trimToMax ((m.buffers c.key).getD "" ++ stripAnsiSequences c.chunk)
            m.maxBufferChars).data <:+
            ((m.buffers c.key).getD "").data ++ (stripAnsiSequences c.chunk).data := by
          have := trimToMax_suffix
            ((m.buffers c.key).getD "" ++ stripAnsiSequences c.chunk) m.maxBufferChars
          rwa [String.data_append] at this
        refine h1.trans ?_
        cases hbuf : m.buffers c.key with
        | none =>
          show ([] : List Char) ++ _ <:+ _
          rw [List.nil_append]
          exact (List.suffix_append acc _)
        | some prev =>
          show prev.data ++ _ <:+ _
          exact isSuffix_append_same _ (h prev hbuf).2
      have := ih (m.matches c.key c.chunk c.patterns).2
        (acc ++ (stripAnsiSequences c.chunk).data) hnext s hs
      refine ⟨this.1, ?_⟩
      have hacc : accumStripped c.key (c :: cs) =
          (stripAnsiSequences c.chunk).data ++ accumStripped c.key cs := by
        show (if c.key = c.key then _ else _) ++ _ = _
        rw [if_pos rfl]
      rw [hacc, ← List.append_assoc]
      exact this.2
    · have hsame : ((m.matches c.key c.chunk c.patterns).2).buffers k =
          m.buffers k := by
        show (if k = c.key then _ else _) = _
        rw [if_neg (fun he => hk he.symm)]
      have hnext : ∀ s', ((m.matches c.key c.chunk c.patterns).2).buffers k =
          some s' →
          s'.length ≤ ((m.matches c.key c.chunk c.patterns).2).maxBufferChars ∧
          s'.data <:+ acc := by
        intro s' hs'
        rw [hsame] at hs'
        exact h s' hs'
      have := ih (m.matches c.key c.chunk c.patterns).2 acc hnext s hs
      refine ⟨this.1, ?_⟩
      have hacc : accumStripped k (c :: cs) = accumStripped k cs := by
        show (if c.key = k then _ else _) ++ _ = _
        rw [if_neg hk, List.nil_append]
      rw [hacc]
      exact this.2

/-- Claim C3: over any sequence of matches calls from a fresh matcher
with constructor argument arg, the buffer stored for any key never
exceeds max(256, arg) characters (with arg = 4096 for the source's
default), and its content is always a trailing suffix of the
accumulated per-chunk-stripped text that key received. -/
theorem matcher_buffer_bounded_and_suffix {κ : Type} [DecidableEq κ]
    (arg : Int) (calls : List (MatchCall κ)) (k : κ) (s : String)
    (h : (runMatches (RollingPatternMatcher.new κ arg) calls).buffers k = some s) :
    s.length ≤ (max 256 arg).toNat ∧ s.data <:+ accumStripped k calls := by
  have h2 := runMatches_buffer_inv k calls (RollingPatternMatcher.new κ arg) []
    (fun s' hs' => by simp [RollingPatternMatcher.new] at hs') s h
  have h3 := h2.2
  rw [List.nil_append] at h3
  exact ⟨h2.1, h3⟩

/-- Witness for C3: one call with chunk "abc" for key 0 and buffer cap
argument 300; the stored buffer is "abc", within the cap and a suffix of
the accumulated stripped text. -/
theorem matcher_buffer_bounded_and_suffix_witness :
    ("abc".length ≤ (max 256 (300 : Int)).toNat ∧
      "abc".data <:+ accumStripped 0 [MatchCall.mk 0 "abc" []]) :=
  matcher_buffer_bounded_and_suffix 300 [MatchCall.mk (0 : Nat) "abc" []] 0 "abc"
    (by decide)

theorem runTrace_filter_eq {κ : Type} [DecidableEq κ] (k : κ)
    (calls : List (MatchCall κ)) :
    ∀ (m1 m2 : RollingPatternMatcher κ),
      m1.maxBufferChars = m2.maxBufferChars →
      m1.buffers k = m2.buffers k →
      (runTrace m1 calls).filter (fun p => decide (p.1 = k)) =
        runTrace m2 (calls.filter (fun c => decide (c.key = k))) := by
  induction calls with
  | nil => intro m1 m2 _ _; rfl
  | cons c cs ih =>
    intro m1 m2 hmax hbuf
    by_cases hk : c.key = k
    · subst hk
      have hcomb : trimToMax ((m1.buffers c.key).getD "" ++
          stripAnsiSequences c.chunk) m1.maxBufferChars =
          trimToMax ((m2.buffers c.key).getD "" ++
          stripAnsiSequences c.chunk) m2.maxBufferChars := by
        rw [hbuf, hmax]
      have hres : (m1.matches c.key c.chunk c.patterns).1 =
          (m2.matches c.key c.chunk c.patterns).1 := by
        show (List.any c.patterns fun p => p _) = (List.any c.patterns fun p => p _)
        rw [hcomb]
      have hstate1 : ((m1.matches c.key c.chunk c.patterns).2).buffers c.key =
          ((m2.matches c.key c.chunk c.patterns).2).buffers c.key := by
        show (if c.key = c.key then _ else _) = (if c.key = c.key then _ else _)
        rw [if_pos rfl, if_pos rfl, hcomb]
      have hstate2 : ((m1.matches c.key c.chunk c.patterns).2).maxBufferChars =
          ((m2.matches c.key c.chunk c.patterns).2).maxBufferChars := hmax
      have htail := ih (m1.matches c.key c.chunk c.patterns).2
        (m2.matches c.key c.chunk c.patterns).2 hstate2 hstate1
      show List.filter _ ((c.key, (m1.matches c.key c.chunk c.patterns).1) ::
        runTrace (m1.matches c.key c.chunk c.patterns).2 cs) = _
      rw [List.filter_cons]
      simp only [decide_eq_true_eq, if_true]
      have hrhs : List.filter (fun c' => decide (c'.key = c.key)) (c :: cs) =
          c :: List.filter (fun c' => decide (c'.key = c.key)) cs := by
        rw [List.filter_cons]
        simp only [decide_eq_true_eq, if_true]
      rw [hrhs]
      show _ = (c.key, (m2.matches c.key c.chunk c.patterns).1) ::
        runTrace (m2.matches c.key c.chunk c.patterns).2
          (List.filter (fun c' => decide (c'.key = c.key)) cs)
      rw [hres, htail]
    · have hsame : ((m1.matches c.key c.chunk c.patterns).2).buffers k =
          m2.buffers k := by
        show (if k = c.key then _ else _) = _
        rw [if_neg (fun he => hk he.symm)]
        exact hbuf
      have htail := ih (m1.matches c.key c.chunk c.patterns).2 m2 hmax hsame
      show List.filter _ ((c.key, (m1.matches c.key c.chunk c.patterns).1) ::
        runTrace (m1.matches c.key c.chunk c.patterns).2 cs) = _
      rw [List.filter_cons]
      simp only [decide_eq_true_eq]
      rw [if_neg hk]
      have hrhs : List.filter (fun c' => decide (c'.key = k)) (c :: cs) =
          List.filter (fun c' => decide (c'.key = k)) cs := by
        rw [List.filter_cons]
        simp only [decide_eq_true_eq]
        rw [if_neg hk]
      rw [hrhs]
      exact htail

/-- Claim C5: sessions are fully isolated.  For any interleaved sequence
of matches calls started from a fresh matcher and any session key k, the
subsequence of (key, result) pairs belonging to k equals the trace
obtained by running only k's calls alone from a fresh matcher. -/
theorem matcher_sessions_isolated {κ : Type} [DecidableEq κ] (arg : Int)
    (calls : List (MatchCall κ)) (k : κ) :
    (runTrace (RollingPatternMatcher.new κ arg) calls).filter
      (fun p => decide (p.1 = k)) =
    runTrace (RollingPatternMatcher.new κ arg)
      (calls.filter (fun c => decide (c.key = k))) :=
  runTrace_filter_eq k calls _ _ rfl rfl

/-- Model of an untyped JavaScript configuration value. -/
inductive JSValue where
  | str (s : String) : JSValue
  | num (n : JSNum) : JSValue
  | bool (b : Bool) : JSValue
  | arr (xs : List JSValue) : JSValue
  | nullv : JSValue
  | undef : JSValue

/-- The five built-in default error patterns (src/extension.ts). -/
def DEFAULT_ERROR_PATTERNS : List String :=
  ["\\bError\\b", "\\bTypeError\\b", "\\bFATAL\\b", "\\bException\\b",
   "\\bTraceback\\b"]

/-- The default ignore-exit-codes configuration [130] (src/extension.ts). -/
def DEFAULT_IGNORE_EXIT_CODES : List JSValue := [JSValue.num (JSNum.fin 130)]

/-- normalizeStringArray (src/extension.ts): a copy of the fallback when
the value is not an array, otherwise the string-typed elements only. -/
def normalizeStringArray (raw : JSValue) (fallback : List String) : List String :=
  match raw with
  | JSValue.arr xs =>
    xs.filterMap (fun v => match v with | JSValue.str s => some s | _ => none)
  | _ => fallback

/-- normalizeUnknownArray (src/extension.ts): a copy of the fallback when
the value is not an array, otherwise the array itself. -/
def normalizeUnknownArray (raw : JSValue) (fallback : List JSValue) : List JSValue :=
  match raw with
  | JSValue.arr xs => xs
  | _ => fallback

/-- JavaScript whitespace as recognized by String.prototype.trim: the
ASCII whitespace characters, no-break space, the line and paragraph
separators and the byte-order mark. -/
def isJSSpace (c : Char) : Bool :=
  (decide (9 ≤ c.toNat) && decide (c.toNat ≤ 13)) || c = ' ' ||
  decide (c.toNat = 160) || decide (c.toNat = 0x2028) ||
  decide (c.toNat = 0x2029) || decide (c.toNat = 0xFEFF)

/-- Modelled from the spec: the host String.prototype.trim (a JavaScript
builtin, not part of this repository), removing leading and trailing
whitespace. -/
def jsTrim (s : String) : String :=
  ⟨((s.data.dropWhile isJSSpace).reverse.dropWhile isJSSpace).reverse⟩

/-- Modelled from the spec: the syntax check performed by the host
JavaScript RegExp constructor (a builtin, not part of this repository),
which throws a SyntaxError on malformed patterns.  This simplified
scanner tracks backslash escapes, character classes and group nesting,
and rejects a dangling escape, an unterminated character class and
unbalanced groups - in particular the "[invalid" pattern of the test
suite fails while the built-in default patterns succeed. -/
def regexScan : List Char → Bool → Nat → Bool
  | [], inClass, depth => !inClass && decide (depth = 0)
  | '\\' :: rest, inClass, depth =>
    match rest with
    | [] => false
    | _ :: rest2 => regexScan rest2 inClass depth
  | '[' :: rest, _, depth => regexScan rest true depth
  | ']' :: rest, _, depth => regexScan rest false depth
  | '(' :: rest, inClass, depth =>
    if inClass then regexScan rest inClass depth
    else regexScan rest inClass (depth + 1)
  | ')' :: rest, inClass, depth =>
    if inClass then regexScan rest inClass depth
    else
      match depth with
      | 0 => false
      | d + 1 => regexScan rest inClass d
  | _ :: rest, inClass, depth => regexScan rest inClass depth

/-- Does this pattern source compile as a (case-insensitive) RegExp? -/
def regexCompilesI (s : String) : Bool := regexScan s.data false 0

/-- A compiled case-insensitive regular expression, identified by its
source pattern (new RegExp(pattern, "i")). -/
structure CompiledRegex where
  source : String
deriving DecidableEq

/-- The result record of parseErrorPatterns. -/
structure PatternParseResult where
  compiled : List CompiledRegex
  invalid : List String
deriving DecidableEq

/-- The for-loop of parseErrorPatterns: trim each candidate, skip empty
ones, push compilable ones onto compiled and the rest onto invalid,
preserving input order in both outputs. -/
def parseLoop : List String → List CompiledRegex × List String
  | [] => ([], [])
  | candidate :: rest =>
    let pattern := jsTrim candidate
    let r := parseLoop rest
    if pattern.length = 0 then r
    else if regexCompilesI pattern then (CompiledRegex.mk pattern :: r.1, r.2)
    else (r.1, pattern :: r.2)

/-- parseErrorPatterns (src/extension.ts). -/
def parseErrorPatterns (raw : JSValue) : PatternParseResult :=
  let r := parseLoop (normalizeStringArray raw DEFAULT_ERROR_PATTERNS)
  PatternParseResult.mk r.1 r.2

theorem parseLoop_eq (l : List String) :
    parseLoop l =
      (((l.map jsTrim).filter
          (fun p => !(decide (p.length = 0)) && regexCompilesI p)).map
        CompiledRegex.mk,
       (l.map jsTrim).filter
          (fun p => !(decide (p.length = 0)) && !(regexCompilesI p))) := by
  induction l with
  | nil => rfl
  | cons c rest ih =>
    simp only [parseLoop, List.map_cons, List.filter_cons, ih]
    by_cases h0 : (jsTrim c).length = 0
    · simp [h0]
    · by_cases hc : regexCompilesI (jsTrim c)
      · simp [h0, hc]
      · simp [h0, hc]

/-- Claim C6: parseErrorPatterns is total; the compiled output is exactly
the trimmed, non-empty, compilable entries in input order, and the
invalid output is exactly the trimmed, non-empty, non-compilable entries
in input order (so invalid entries are excluded from compiled); the
concrete list ["Error", "[invalid", "TypeError"] yields 2 compiled
patterns and invalid = ["[invalid"], and a non-array input yields as many
compiled patterns as the built-in default list, which has 5 entries. -/
theorem parseErrorPatterns_spec :
    (∀ raw : JSValue,
      (parseErrorPatterns raw).compiled =
        (((normalizeStringArray raw DEFAULT_ERROR_PATTERNS).map jsTrim).filter
          (fun p => !(decide (p.length = 0)) && regexCompilesI p)).map
          CompiledRegex.mk ∧
      (parseErrorPatterns raw).invalid =
        ((normalizeStringArray raw DEFAULT_ERROR_PATTERNS).map jsTrim).filter
          (fun p => !(decide (p.length = 0)) && !(regexCompilesI p))) ∧
    (parseErrorPatterns (JSValue.arr
      [JSValue.str "Error", JSValue.str "[invalid",
       JSValue.str "TypeError"])).compiled.length = 2 ∧
    (parseErrorPatterns (JSValue.arr
      [JSValue.str "Error", JSValue.str "[invalid",
       JSValue.str "TypeError"])).invalid = ["[invalid"] ∧
    (parseErrorPatterns (JSValue.str "not-an-array")).compiled.length =
      DEFAULT_ERROR_PATTERNS.length ∧
    DEFAULT_ERROR_PATTERNS.length = 5 := by
  refine ⟨fun raw => ?_, by decide, by decide, by decide, by decide⟩
  show (PatternParseResult.mk (parseLoop _).1 (parseLoop _).2).compiled = _ ∧
    (PatternParseResult.mk (parseLoop _).1 (parseLoop _).2).invalid = _
  rw [parseLoop_eq]
  exact ⟨rfl, rfl⟩

/-- JavaScript Math.trunc on a finite number: truncation toward zero. -/
def jsTrunc (q : ℚ) : Int := if q < 0 then ⌈q⌉ else ⌊q⌋

/-- The for-loop of normalizeIgnoreExitCodes: keep only finite
number-typed entries, truncate toward zero, drop zero, and insert into
the set (modelled as a duplicate-free list in first-insertion order,
matching the iteration order of a JavaScript Set). -/
def exitCodesLoop : List JSValue → List Int → List Int
  | [], acc => acc
  | JSValue.num (JSNum.fin q) :: rest, acc =>
    if jsTrunc q = 0 then exitCodesLoop rest acc
    else if jsTrunc q ∈ acc then exitCodesLoop rest acc
    else exitCodesLoop rest (acc ++ [jsTrunc q])
  | _ :: rest, acc => exitCodesLoop rest acc

/-- normalizeIgnoreExitCodes (src/extension.ts). -/
def normalizeIgnoreExitCodes (raw : JSValue) : List Int :=
  exitCodesLoop (normalizeUnknownArray raw DEFAULT_IGNORE_EXIT_CODES) []

theorem exitCodesLoop_zero_not_mem (l : List JSValue) :
    ∀ acc : List Int, (0 : Int) ∉ acc → (0 : Int) ∉ exitCodesLoop l acc := by
  induction l with
  | nil => intro acc h; exact h
  | cons v rest ih =>
    intro acc h
    cases v with
    | num n =>
      cases n with
      | fin q =>
        show (0 : Int) ∉
          (if jsTrunc q = 0 then exitCodesLoop rest acc
           else if jsTrunc q ∈ acc then exitCodesLoop rest acc
           else exitCodesLoop rest (acc ++ [jsTrunc q]))
        by_cases h0 : jsTrunc q = 0
        · rw [if_pos h0]; exact ih acc h
        · rw [if_neg h0]
          by_cases hm : jsTrunc q ∈ acc
          · rw [if_pos hm]; exact ih acc h
          · rw [if_neg hm]
            refine ih _ (fun hmem => ?_)
            rcases List.mem_append.mp hmem with hl | hr
            · exact h hl
            · exact h0 (List.mem_singleton.mp hr).symm
      | nan => exact ih acc h
      | inf p => exact ih acc h
    | str s => exact ih acc h
    | bool b => exact ih acc h
    | arr xs => exact ih acc h
    | nullv => exact ih acc h
    | undef => exact ih acc h

theorem exitCodesLoop_nodup (l : List JSValue) :
    ∀ acc : List Int, acc.Nodup → (exitCodesLoop l acc).Nodup := by
  induction l with
  | nil => intro acc h; exact h
  | cons v rest ih =>
    intro acc h
    cases v with
    | num n =>
      cases n with
      | fin q =>
        show (if jsTrunc q = 0 then exitCodesLoop rest acc
           else if jsTrunc q ∈ acc then exitCodesLoop rest acc
           else exitCodesLoop rest (acc ++ [jsTrunc q])).Nodup
        by_cases h0 : jsTrunc q = 0
        · rw [if_pos h0]; exact ih acc h
        · rw [if_neg h0]
          by_cases hm : jsTrunc q ∈ acc
          · rw [if_pos hm]; exact ih acc h
          · rw [if_neg hm]
            refine ih _ (h.append (List.nodup_singleton _) ?_)
            intro a ha hb
            rw [List.mem_singleton] at hb
            subst hb
            exact hm ha
      | nan => exact ih acc h
      | inf p => exact ih acc h
    | str s => exact ih acc h
    | bool b => exact ih acc h
    | arr xs => exact ih acc h
    | nullv => exact ih acc h
    | undef => exact ih acc h

/-- Claim C7: normalizeIgnoreExitCodes keeps only finite number-typed
entries, truncates toward zero, discards zero values and deduplicates:
on [130, 2.8, 130, 0, "9"] the result is [130, 2] (the set 130 and 2 in
insertion order, the numeric string "9" discarded), and for every input
the result never contains 0 and has no duplicates. -/
theorem normalizeIgnoreExitCodes_spec :
    normalizeIgnoreExitCodes (JSValue.arr
      [JSValue.num (JSNum.fin 130), JSValue.num (JSNum.fin 2.8),
       JSValue.num (JSNum.fin 130), JSValue.num (JSNum.fin 0),
       JSValue.str "9"]) = [130, 2] ∧
    ∀ raw : JSValue, (0 : Int) ∉ normalizeIgnoreExitCodes raw ∧
      (normalizeIgnoreExitCodes raw).Nodup := by
  constructor
  · show exitCodesLoop _ [] = [130, 2]
    have ht130 : jsTrunc 130 = 130 := by norm_num [jsTrunc]
    have ht28 : jsTrunc (2.8 : ℚ) = 2 := by norm_num [jsTrunc]
    have ht0 : jsTrunc 0 = 0 := by norm_num [jsTrunc]
    simp only [exitCodesLoop, ht130, ht28, ht0]
    norm_num
  · intro raw
    exact ⟨exitCodesLoop_zero_not_mem _ [] (by simp),
           exitCodesLoop_nodup _ [] List.nodup_nil⟩
